import Mathlib

/-
Verification development for the diptorch image-filtering library
(diptorch/filters.py and diptorch/linalg.py), shallowly embedded over
real arithmetic.  Tensors become functions from integer pixel
coordinates to reals; the float operations of the source become the
corresponding real operations, with division by zero following Lean's
x / 0 = 0 convention where the source would produce NaN/inf.
-/

namespace Diptorch

/-! ## linalg.py -/

/-- deth3: determinant of a symmetric 3x3 matrix from its upper-triangular
components (linalg.py). -/
def deth3 (ii ij ik jj jk kk : ℝ) : ℝ :=
  ii * jj * kk + 2 * ij * ik * jk - ii * jk ^ 2 - jj * ik ^ 2 - kk * ij ^ 2

/-- eigvalsh2: closed-form eigenvalues of a symmetric 2x2 matrix
(linalg.py).  `tr.square() - 4*det` is clamped at 0 before the square
root; the pair is returned ascending by value. -/
noncomputable def eigvalsh2 (ii ij jj : ℝ) : ℝ × ℝ :=
  let tr := ii + jj
  let det := ii * jj - ij ^ 2
  let disc := Real.sqrt (max (tr ^ 2 - 4 * det) 0)
  ((tr - disc) / 2, (tr + disc) / 2)

/-- eigvalsh3: trigonometric closed-form eigenvalues of a symmetric 3x3
matrix (linalg.py).  `r` is clamped to [-1, 1] before `arccos`; `eps` is
added to the cubic term `p^3` of the denominator. -/
noncomputable def eigvalsh3 (ii ij ik jj jk kk eps : ℝ) : ℝ × ℝ × ℝ :=
  let q := (ii + jj + kk) / 3
  let p1 := ij ^ 2 + ik ^ 2 + jk ^ 2
  let p2 := (ii - q) ^ 2 + (jj - q) ^ 2 + (kk - q) ^ 2
  let p := Real.sqrt ((2 * p1 + p2) / 6)
  let r := deth3 (ii - q) ij ik (jj - q) jk (kk - q) / (p ^ 3 + eps) / 2
  let r1 := min 1 (max (-1) r)
  let phi := Real.arccos r1 / 3
  let eig3 := q + 2 * p * Real.cos phi
  let eig1 := q + 2 * p * Real.cos (phi + 2 * Real.pi / 3)
  let eig2 := 3 * q - eig1 - eig3
  (eig1, eig2, eig3)

/-! ## Absolute-value sorting used by hessian_eigenvalues and frangi
(`eig.abs().argsort(dim=1)` followed by `take_along_dim`). -/

/-- sortAbs2: reorder a pair ascending by absolute value (filters.py,
hessian_eigenvalues). -/
noncomputable def sortAbs2 (e : ℝ × ℝ) : ℝ × ℝ :=
  if |e.1| ≤ |e.2| then e else (e.2, e.1)

/-- insAbs: insert a value into a pair already sorted by absolute value. -/
noncomputable def insAbs (c : ℝ) (p : ℝ × ℝ) : ℝ × ℝ × ℝ :=
  if |c| ≤ |p.1| then (c, p.1, p.2)
  else if |c| ≤ |p.2| then (p.1, c, p.2)
  else (p.1, p.2, c)

/-- sortAbs3: reorder a triple ascending by absolute value (filters.py,
hessian_eigenvalues). -/
noncomputable def sortAbs3 (e : ℝ × ℝ × ℝ) : ℝ × ℝ × ℝ :=
  insAbs e.2.2 (sortAbs2 (e.1, e.2.1))

/-! ## filters.py: _gaussian_kernel_1d

The kernel is sampled at integer coordinates x in [-r, r] with
r = ceil(sigma * truncate); `.mean()` divides by the element count
2r + 1.  The order-1 and order-2 kernels are mean-subtracted and then
divided by their normalization sums (named gk1norm / gk2norm below so
theorems can refer to them). -/

/-- Kernel radius: `radius = ceil(sigma * truncate)`. -/
noncomputable def gaussRadius (sigma truncate : ℝ) : ℤ := ⌈sigma * truncate⌉

/-- Sample coordinates of the kernel: `x = arange(-radius, radius + 1)`. -/
noncomputable def gaussKernelSupport (sigma truncate : ℝ) : Finset ℤ :=
  Finset.Icc (-(gaussRadius sigma truncate)) (gaussRadius sigma truncate)

/-- Zeroth-order Gaussian sample `exp(-x^2 / (2 var)) / (sqrt(2 pi) sigma)`. -/
noncomputable def gauss0 (sigma : ℝ) (x : ℤ) : ℝ :=
  Real.exp (-(x : ℝ) ^ 2 / (2 * sigma ^ 2)) / (Real.sqrt (2 * Real.pi) * sigma)

/-- Raw order-1 sample `g * (-x / var)`. -/
noncomputable def gk1raw (sigma : ℝ) (x : ℤ) : ℝ :=
  gauss0 sigma x * (-(x : ℝ) / sigma ^ 2)

/-- Order-1 samples after the mean subtraction `g1 -= g1.mean()`. -/
noncomputable def gk1centered (sigma truncate : ℝ) (x : ℤ) : ℝ :=
  gk1raw sigma x -
    (∑ y in gaussKernelSupport sigma truncate, gk1raw sigma y) /
      (2 * (gaussRadius sigma truncate : ℝ) + 1)

/-- Order-1 normalizer `(g1 * x).sum() / -1`. -/
noncomputable def gk1norm (sigma truncate : ℝ) : ℝ :=
  (∑ y in gaussKernelSupport sigma truncate, gk1centered sigma truncate y * (y : ℝ)) / (-1)

/-- Raw order-2 sample `g * (x^2 / var - 1) / var`. -/
noncomputable def gk2raw (sigma : ℝ) (x : ℤ) : ℝ :=
  gauss0 sigma x * ((x : ℝ) ^ 2 / sigma ^ 2 - 1) / sigma ^ 2

/-- Order-2 samples after the mean subtraction `g2 -= g2.mean()`. -/
noncomputable def gk2centered (sigma truncate : ℝ) (x : ℤ) : ℝ :=
  gk2raw sigma x -
    (∑ y in gaussKernelSupport sigma truncate, gk2raw sigma y) /
      (2 * (gaussRadius sigma truncate : ℝ) + 1)

/-- Order-2 normalizer `(g2 * x^2).sum() / 2`. -/
noncomputable def gk2norm (sigma truncate : ℝ) : ℝ :=
  (∑ y in gaussKernelSupport sigma truncate, gk2centered sigma truncate y * (y : ℝ) ^ 2) / 2

/-- _gaussian_kernel_1d as a function on sample coordinates.  The source
raises NotImplementedError for orders above 2; those orders are never
used and map to the zero kernel here. -/
noncomputable def gaussianKernel1d (sigma : ℝ) (order : ℕ) (truncate : ℝ) : ℤ → ℝ :=
  match order with
  | 0 => fun x => gauss0 sigma x
  | 1 => fun x => gk1centered sigma truncate x / gk1norm sigma truncate
  | 2 => fun x => gk2centered sigma truncate x / gk2norm sigma truncate
  | _ + 3 => fun _ => 0

/-! ## filters.py: separable convolution (_conv and gaussian_filter)

Images drop the batch and channel axes and become functions from integer
spatial coordinates to reals; each axis has an explicit extent so the
padding modes of torch.nn.functional.pad can be modelled. -/

/-- Boundary handling modes of torch.nn.functional.pad. -/
inductive PadMode
  | reflect
  | replicate
  | constant
  | circular

/-- Extension of a length-n signal by the given padding mode.  PyTorch's
reflect mode mirrors without repeating the border sample and requires
padding smaller than the signal extent, so a single reflection suffices;
constant mode pads with the default value 0. -/
def extend1 (mode : PadMode) (n : ℤ) (f : ℤ → ℝ) : ℤ → ℝ := fun i =>
  match mode with
  | .constant => if 0 ≤ i ∧ i < n then f i else 0
  | .reflect => if i < 0 then f (-i) else if n ≤ i then f (2 * n - 2 - i) else f i
  | .replicate => if i < 0 then f 0 else if n ≤ i then f (n - 1) else f i
  | .circular => f (i % n)

/-- Same-size 1D pass with a kernel of radius p over an extended signal:
out(i) = sum over x in [-p, p] of k(x) * s(i + x).  PyTorch convNd
computes cross-correlation, so the kernel is not flipped. -/
noncomputable def convLine (p : ℤ) (k : ℤ → ℝ) (s : ℤ → ℝ) (i : ℤ) : ℝ :=
  ∑ x in Finset.Icc (-p) p, k x * s (i + x)

/-- _conv along axis 0 (H) of a 2D image. -/
noncomputable def conv2dAxis0 (mode : PadMode) (n p : ℤ) (k : ℤ → ℝ)
    (f : ℤ → ℤ → ℝ) : ℤ → ℤ → ℝ :=
  fun i j => convLine p k (extend1 mode n (fun t => f t j)) i

/-- _conv along axis 1 (W) of a 2D image. -/
noncomputable def conv2dAxis1 (mode : PadMode) (n p : ℤ) (k : ℤ → ℝ)
    (f : ℤ → ℤ → ℝ) : ℤ → ℤ → ℝ :=
  fun i j => convLine p k (extend1 mode n (fun t => f i t)) j

/-- gaussian_filter on a 2D image: one padded 1D pass per spatial axis,
axis 0 (H) first, then axis 1 (W), with per-axis derivative orders. -/
noncomputable def gaussian_filter2 (sigma truncate : ℝ) (mode : PadMode) (H W : ℤ)
    (o0 o1 : ℕ) (f : ℤ → ℤ → ℝ) : ℤ → ℤ → ℝ :=
  conv2dAxis1 mode W (gaussRadius sigma truncate) (gaussianKernel1d sigma o1 truncate)
    (conv2dAxis0 mode H (gaussRadius sigma truncate) (gaussianKernel1d sigma o0 truncate) f)

/-- _conv along axis 0 (D) of a 3D image. -/
noncomputable def conv3dAxis0 (mode : PadMode) (n p : ℤ) (k : ℤ → ℝ)
    (f : ℤ → ℤ → ℤ → ℝ) : ℤ → ℤ → ℤ → ℝ :=
  fun d h w => convLine p k (extend1 mode n (fun t => f t h w)) d

/-- _conv along axis 1 (H) of a 3D image. -/
noncomputable def conv3dAxis1 (mode : PadMode) (n p : ℤ) (k : ℤ → ℝ)
    (f : ℤ → ℤ → ℤ → ℝ) : ℤ → ℤ → ℤ → ℝ :=
  fun d h w => convLine p k (extend1 mode n (fun t => f d t w)) h

/-- _conv along axis 2 (W) of a 3D image. -/
noncomputable def conv3dAxis2 (mode : PadMode) (n p : ℤ) (k : ℤ → ℝ)
    (f : ℤ → ℤ → ℤ → ℝ) : ℤ → ℤ → ℤ → ℝ :=
  fun d h w => convLine p k (extend1 mode n (fun t => f d h t)) w

/-- gaussian_filter on a 3D image: padded 1D passes along D, then H,
then W, with per-axis derivative orders. -/
noncomputable def gaussian_filter3 (sigma truncate : ℝ) (mode : PadMode) (D H W : ℤ)
    (o0 o1 o2 : ℕ) (f : ℤ → ℤ → ℤ → ℝ) : ℤ → ℤ → ℤ → ℝ :=
  conv3dAxis2 mode W (gaussRadius sigma truncate) (gaussianKernel1d sigma o2 truncate)
    (conv3dAxis1 mode H (gaussRadius sigma truncate) (gaussianKernel1d sigma o1 truncate)
      (conv3dAxis0 mode D (gaussRadius sigma truncate) (gaussianKernel1d sigma o0 truncate) f))

/-! ## filters.py: _hessian_3d (fused grouped convolution)

The source calls F.conv3d three times on a 6-channel expansion of the
image, with weights kx (kernel laid along W), ky (along H), kz (along D)
and zero-padding tuples (padding, 0, 0), (0, padding, 0), (0, 0, padding).
F.conv3d interprets the padding tuple axis-by-axis as (D, H, W), so the
first pass zero-pads D while running a valid convolution along W (cropping
W by 2*padding), the second zero-pads and convolves H, and the third
zero-pads W while running a valid convolution along D.  The `mode`
parameter of _hessian_3d is never used.  The three steps below transcribe
the index arithmetic of those calls; the output is indexed by the original
coordinates. -/

/-- First fused pass: zero-pad D by p, valid convolution along W with ka.
Output D index runs over the padded extent and W over the cropped one. -/
noncomputable def hessian3dStepX (D p : ℤ) (ka : ℤ → ℝ)
    (f : ℤ → ℤ → ℤ → ℝ) : ℤ → ℤ → ℤ → ℝ :=
  fun d h w =>
    ∑ x in Finset.Icc (-p) p,
      ka x * (if 0 ≤ d - p ∧ d - p < D then f (d - p) h (w + p + x) else 0)

/-- Second fused pass: zero-pad H by p, valid convolution along H with kb. -/
noncomputable def hessian3dStepY (H p : ℤ) (kb : ℤ → ℝ)
    (g : ℤ → ℤ → ℤ → ℝ) : ℤ → ℤ → ℤ → ℝ :=
  fun d h w =>
    ∑ x in Finset.Icc (-p) p,
      kb x * (if 0 ≤ h + x ∧ h + x < H then g d (h + x) w else 0)

/-- Third fused pass: zero-pad the cropped W extent (W - 2p) by p, valid
convolution along D with kc, restoring the original extents. -/
noncomputable def hessian3dStepZ (W p : ℤ) (kc : ℤ → ℝ)
    (g : ℤ → ℤ → ℤ → ℝ) : ℤ → ℤ → ℤ → ℝ :=
  fun d h w =>
    ∑ x in Finset.Icc (-p) p,
      kc x * (if 0 ≤ w - p ∧ w - p < W - 2 * p then g (d + p + x) h (w - p) else 0)

/-- One output channel of _hessian_3d, with derivative orders ow (kernel
along W), oh (along H), od (along D). -/
noncomputable def hessian3dFusedComponent (sigma truncate : ℝ) (D H W : ℤ)
    (ow oh od : ℕ) (f : ℤ → ℤ → ℤ → ℝ) : ℤ → ℤ → ℤ → ℝ :=
  hessian3dStepZ W (gaussRadius sigma truncate) (gaussianKernel1d sigma od truncate)
    (hessian3dStepY H (gaussRadius sigma truncate) (gaussianKernel1d sigma oh truncate)
      (hessian3dStepX D (gaussRadius sigma truncate) (gaussianKernel1d sigma ow truncate) f))

/-- Channel 0 of _hessian_3d: kx = g2, ky = g0, kz = g0 (the xx component). -/
noncomputable def hessian3d_xx (sigma truncate : ℝ) (D H W : ℤ)
    (f : ℤ → ℤ → ℤ → ℝ) : ℤ → ℤ → ℤ → ℝ :=
  hessian3dFusedComponent sigma truncate D H W 2 0 0 f

/-- Channel 1 of _hessian_3d: kx = g1, ky = g1, kz = g0 (the xy component). -/
noncomputable def hessian3d_xy (sigma truncate : ℝ) (D H W : ℤ)
    (f : ℤ → ℤ → ℤ → ℝ) : ℤ → ℤ → ℤ → ℝ :=
  hessian3dFusedComponent sigma truncate D H W 1 1 0 f

/-- Channel 2 of _hessian_3d: kx = g1, ky = g0, kz = g1 (the xz component). -/
noncomputable def hessian3d_xz (sigma truncate : ℝ) (D H W : ℤ)
    (f : ℤ → ℤ → ℤ → ℝ) : ℤ → ℤ → ℤ → ℝ :=
  hessian3dFusedComponent sigma truncate D H W 1 0 1 f

/-- Channel 3 of _hessian_3d: kx = g0, ky = g2, kz = g0 (the yy component). -/
noncomputable def hessian3d_yy (sigma truncate : ℝ) (D H W : ℤ)
    (f : ℤ → ℤ → ℤ → ℝ) : ℤ → ℤ → ℤ → ℝ :=
  hessian3dFusedComponent sigma truncate D H W 0 2 0 f

/-- Channel 4 of _hessian_3d: kx = g0, ky = g1, kz = g1 (the yz component). -/
noncomputable def hessian3d_yz (sigma truncate : ℝ) (D H W : ℤ)
    (f : ℤ → ℤ → ℤ → ℝ) : ℤ → ℤ → ℤ → ℝ :=
  hessian3dFusedComponent sigma truncate D H W 0 1 1 f

/-- Channel 5 of _hessian_3d: kx = g0, ky = g0, kz = g2 (the zz component). -/
noncomputable def hessian3d_zz (sigma truncate : ℝ) (D H W : ℤ)
    (f : ℤ → ℤ → ℤ → ℝ) : ℤ → ℤ → ℤ → ℝ :=
  hessian3dFusedComponent sigma truncate D H W 0 0 2 f

/-- _hessian_2d: xx component, order [0, 2]. -/
noncomputable def hessian2d_xx (sigma truncate : ℝ) (mode : PadMode) (H W : ℤ)
    (f : ℤ → ℤ → ℝ) : ℤ → ℤ → ℝ :=
  gaussian_filter2 sigma truncate mode H W 0 2 f

/-- _hessian_2d: yy component, order [2, 0]. -/
noncomputable def hessian2d_yy (sigma truncate : ℝ) (mode : PadMode) (H W : ℤ)
    (f : ℤ → ℤ → ℝ) : ℤ → ℤ → ℝ :=
  gaussian_filter2 sigma truncate mode H W 2 0 f

/-- _hessian_2d: xy component, order [1, 1]. -/
noncomputable def hessian2d_xy (sigma truncate : ℝ) (mode : PadMode) (H W : ℤ)
    (f : ℤ → ℤ → ℝ) : ℤ → ℤ → ℝ :=
  gaussian_filter2 sigma truncate mode H W 1 1 f

/-- Test image for the fused-path analysis: a unit impulse at voxel
(0, 1, 1) of a 1 x 3 x 3 volume. -/
def delta3 : ℤ → ℤ → ℤ → ℝ := fun d h w => if d = 0 ∧ h = 1 ∧ w = 1 then 1 else 0

/-! ## filters.py: _hessian_as_matrix and the eigenvalue pipeline -/

/-- _hessian_as_matrix for three components: stack the triangle into the
full symmetric 2x2 matrix. -/
def hessianAsMatrix2 (xx xy yy : ℝ) : Matrix (Fin 2) (Fin 2) ℝ :=
  Matrix.of ![![xx, xy], ![xy, yy]]

/-- Upper-triangle extraction of a 2x2 matrix, as eigvalsh does with
torch.triu_indices(2, 2). -/
def triu2 (M : Matrix (Fin 2) (Fin 2) ℝ) : ℝ × ℝ × ℝ := (M 0 0, M 0 1, M 1 1)

/-- _hessian_as_matrix for six components: stack the triangle into the
full symmetric 3x3 matrix. -/
def hessianAsMatrix3 (xx xy xz yy yz zz : ℝ) : Matrix (Fin 3) (Fin 3) ℝ :=
  Matrix.of ![![xx, xy, xz], ![xy, yy, yz], ![xz, yz, zz]]

/-- Upper-triangle extraction of a 3x3 matrix, as eigvalsh does with
torch.triu_indices(3, 3). -/
def triu3 (M : Matrix (Fin 3) (Fin 3) ℝ) : ℝ × ℝ × ℝ × ℝ × ℝ × ℝ :=
  (M 0 0, M 0 1, M 0 2, M 1 1, M 1 2, M 2 2)

/-- hessian_eigenvalues on a 2D image: eigvalsh2 of the Hessian components,
re-ordered ascending by absolute value per pixel. -/
noncomputable def hessian_eigenvalues2 (sigma truncate : ℝ) (mode : PadMode)
    (H W : ℤ) (f : ℤ → ℤ → ℝ) : ℤ → ℤ → ℝ × ℝ :=
  fun i j =>
    sortAbs2 (eigvalsh2 (hessian2d_xx sigma truncate mode H W f i j)
      (hessian2d_xy sigma truncate mode H W f i j)
      (hessian2d_yy sigma truncate mode H W f i j))

/-- hessian_eigenvalues on a 3D image: eigvalsh3 (with its default
eps = 1e-8) of the six fused Hessian channels, re-ordered ascending by
absolute value per voxel. -/
noncomputable def hessian_eigenvalues3 (sigma truncate : ℝ) (D H W : ℤ)
    (f : ℤ → ℤ → ℤ → ℝ) : ℤ → ℤ → ℤ → ℝ × ℝ × ℝ :=
  fun d h w =>
    sortAbs3 (eigvalsh3 (hessian3d_xx sigma truncate D H W f d h w)
      (hessian3d_xy sigma truncate D H W f d h w)
      (hessian3d_xz sigma truncate D H W f d h w)
      (hessian3d_yy sigma truncate D H W f d h w)
      (hessian3d_yz sigma truncate D H W f d h w)
      (hessian3d_zz sigma truncate D H W f d h w) 1e-8)

/-! ## filters.py: frangi

The response is phrased per pixel; the tensor-level loop applies max
elementwise, so the per-pixel view of the running maximum is the same
field.  frangi calls hessian_eigenvalues with its defaults (truncate 4,
reflect padding in 2D). -/

/-- Blobness ratio of frangi's 2D branch:
`lambda2 = torch.maximum(eigenvalues[1:], eps)` then
`r_b = |lambda1 / lambda2|`.  The floor is a signed maximum, not a
magnitude floor. -/
noncomputable def frangiRb2d (lam1 lam2 eps : ℝ) : ℝ := |lam1 / max lam2 eps|

/-- Per-pixel response of frangi's 2D branch.  `r_a` is torch.inf there,
making the factor `1 - exp(-r_a^2 / (2 alpha^2))` equal to 1 in float
arithmetic for every alpha; it is transcribed as the literal 1. -/
noncomputable def frangiResponse2d (beta eps gammaT lam1 lam2 : ℝ) : ℝ :=
  1 * Real.exp (-frangiRb2d lam1 lam2 eps ^ 2 / (2 * beta ^ 2 + eps)) *
    (1 - Real.exp (-Real.sqrt (lam1 ^ 2 + lam2 ^ 2) ^ 2 / (2 * gammaT ^ 2 + eps)))

/-- Per-pixel response of frangi's 3D branch: lambda2 and lambda3 floored
at eps for the ratios, the structure magnitude from the unfloored
eigenvalues. -/
noncomputable def frangiResponse3d (alpha beta eps gammaT lam1 lam2 lam3 : ℝ) : ℝ :=
  (1 - Real.exp (-(max lam2 eps / max lam3 eps) ^ 2 / (2 * alpha ^ 2))) *
    Real.exp (-(|lam1| / Real.sqrt (max lam2 eps * max lam3 eps)) ^ 2 /
      (2 * beta ^ 2 + eps)) *
    (1 - Real.exp (-Real.sqrt (lam1 ^ 2 + lam2 ^ 2 + lam3 ^ 2) ^ 2 /
      (2 * gammaT ^ 2 + eps)))

/-- Per-scale gamma threshold: the caller's gamma when provided, otherwise
half the maximum structure magnitude of this scale, or 1 when that is 0. -/
noncomputable def frangiGammaT (gamma : Option ℝ) (Smax : ℝ) : ℝ :=
  match gamma with
  | some g => g
  | none => if Smax / 2 = 0 then 1 else Smax / 2

/-- One scale of frangi on a 2D image: eigenvalues re-sorted by absolute
value (the source sorts a second time), the per-scale gamma from the
maximum structure magnitude over the pixel grid, then the response. -/
noncomputable def frangiScale2d (sigma : ℝ) (H W : ℤ) (gamma : Option ℝ)
    (beta eps : ℝ) (f : ℤ → ℤ → ℝ) : ℤ → ℤ → ℝ :=
  let e : ℤ → ℤ → ℝ × ℝ := fun i j =>
    sortAbs2 (hessian_eigenvalues2 sigma 4 PadMode.reflect H W f i j)
  let S : ℤ → ℤ → ℝ := fun i j => Real.sqrt ((e i j).1 ^ 2 + (e i j).2 ^ 2)
  let Smax := sSup {v : ℝ | ∃ i ∈ Set.Icc 0 (H - 1), ∃ j ∈ Set.Icc 0 (W - 1), v = S i j}
  fun i j => frangiResponse2d beta eps (frangiGammaT gamma Smax) (e i j).1 (e i j).2

/-- One scale of frangi on a 3D image. -/
noncomputable def frangiScale3d (sigma : ℝ) (D H W : ℤ) (gamma : Option ℝ)
    (alpha beta eps : ℝ) (f : ℤ → ℤ → ℤ → ℝ) : ℤ → ℤ → ℤ → ℝ :=
  let e : ℤ → ℤ → ℤ → ℝ × ℝ × ℝ := fun d h w =>
    sortAbs3 (hessian_eigenvalues3 sigma 4 D H W f d h w)
  let S : ℤ → ℤ → ℤ → ℝ := fun d h w =>
    Real.sqrt ((e d h w).1 ^ 2 + (e d h w).2.1 ^ 2 + (e d h w).2.2 ^ 2)
  let Smax := sSup {v : ℝ | ∃ d ∈ Set.Icc 0 (D - 1), ∃ h ∈ Set.Icc 0 (H - 1),
    ∃ w ∈ Set.Icc 0 (W - 1), v = S d h w}
  fun d h w =>
    frangiResponse3d alpha beta eps (frangiGammaT gamma Smax)
      (e d h w).1 (e d h w).2.1 (e d h w).2.2

/-- frangi on a 2D image at one pixel: the running maximum of the
per-scale responses, started from the zero field. -/
noncomputable def frangi2 (sigmas : List ℝ) (H W : ℤ) (gamma : Option ℝ)
    (beta eps : ℝ) (f : ℤ → ℤ → ℝ) (i j : ℤ) : ℝ :=
  sigmas.foldl (fun acc s => max acc (frangiScale2d s H W gamma beta eps f i j)) 0

/-- frangi on a 3D image at one voxel: the running maximum of the
per-scale responses, started from the zero field. -/
noncomputable def frangi3 (sigmas : List ℝ) (D H W : ℤ) (gamma : Option ℝ)
    (alpha beta eps : ℝ) (f : ℤ → ℤ → ℤ → ℝ) (d h w : ℤ) : ℝ :=
  sigmas.foldl (fun acc s => max acc (frangiScale3d s D H W gamma alpha beta eps f d h w)) 0

/-- Validation failure of frangi's scale specification. -/
inductive FrangiError
  | negativeSigma
deriving DecidableEq

/-- frangi's scale validation on a 2D image: `torch.any(sigmas < 0.0)`
raises before the scale loop runs; every nonnegative sigma (zero included)
is accepted. -/
noncomputable def frangiChecked2 (sigmas : List ℝ) (H W : ℤ) (gamma : Option ℝ)
    (beta eps : ℝ) (f : ℤ → ℤ → ℝ) : Except FrangiError (ℤ → ℤ → ℝ) :=
  if sigmas.any fun s => decide (s < 0) then Except.error FrangiError.negativeSigma
  else Except.ok (frangi2 sigmas H W gamma beta eps f)

/-- frangi's scale validation on a 3D image. -/
noncomputable def frangiChecked3 (sigmas : List ℝ) (D H W : ℤ) (gamma : Option ℝ)
    (alpha beta eps : ℝ) (f : ℤ → ℤ → ℤ → ℝ) : Except FrangiError (ℤ → ℤ → ℤ → ℝ) :=
  if sigmas.any fun s => decide (s < 0) then Except.error FrangiError.negativeSigma
  else Except.ok (frangi3 sigmas D H W gamma alpha beta eps f)

end Diptorch

namespace Diptorch

/-! ## Theorems about the eigenvalue solvers -/

/-- Helper: the square root of 4 is 2. -/
theorem sqrt_four_eq_two : Real.sqrt 4 = 2 := by
  rw [show (4 : ℝ) = 2 ^ 2 by norm_num]
  exact Real.sqrt_sq (by norm_num)

/-- C7: eigvalsh2 computes eigenvalues by the closed form
(t ∓ sqrt(max(t^2 - 4d, 0)))/2 with t the trace and d the determinant,
returned ascending by value; in particular eigvalsh2(2,0,2) = (2,2) and
eigvalsh2(1,0,3) = (1,3). -/
theorem eigvalsh2_closed_form :
    eigvalsh2 2 0 2 = (2, 2) ∧ eigvalsh2 1 0 3 = (1, 3) ∧
    ∀ ii ij jj : ℝ,
      eigvalsh2 ii ij jj =
        (((ii + jj) - Real.sqrt (max ((ii + jj) ^ 2 - 4 * (ii * jj - ij ^ 2)) 0)) / 2,
         ((ii + jj) + Real.sqrt (max ((ii + jj) ^ 2 - 4 * (ii * jj - ij ^ 2)) 0)) / 2) ∧
      (eigvalsh2 ii ij jj).1 ≤ (eigvalsh2 ii ij jj).2 := by
  refine ⟨?_, ?_, ?_⟩
  · unfold eigvalsh2
    norm_num
  · unfold eigvalsh2
    norm_num [sqrt_four_eq_two]
  · intro ii ij jj
    refine ⟨rfl, ?_⟩
    unfold eigvalsh2
    have h := Real.sqrt_nonneg (max ((ii + jj) ^ 2 - 4 * (ii * jj - ij ^ 2)) 0)
    dsimp only
    linarith

/-- C8: eigvalsh3 on the components of the diagonal matrix diag(c,c,c)
returns (c,c,c) for every real c and every eps guard value. -/
theorem eigvalsh3_diagonal_scalar (c eps : ℝ) :
    eigvalsh3 c 0 0 c 0 c eps = (c, c, c) := by
  unfold eigvalsh3 deth3
  have hq : (c + c + c) / 3 = c := by ring
  have hz : c - (c + c + c) / 3 = 0 := by ring
  simp only [hq, hz]
  norm_num
  ring

/-- C10: the eigenvalues returned by eigvalsh2 sum exactly to the trace
ii + jj, and those returned by eigvalsh3 sum exactly to the trace
ii + jj + kk, over real arithmetic. -/
theorem eig_sum_eq_trace (ii ij jj aii aij aik ajj ajk akk eps : ℝ) :
    (eigvalsh2 ii ij jj).1 + (eigvalsh2 ii ij jj).2 = ii + jj ∧
    (eigvalsh3 aii aij aik ajj ajk akk eps).1 +
      (eigvalsh3 aii aij aik ajj ajk akk eps).2.1 +
      (eigvalsh3 aii aij aik ajj ajk akk eps).2.2 = aii + ajj + akk := by
  constructor
  · unfold eigvalsh2
    dsimp only
    ring
  · unfold eigvalsh3
    dsimp only
    ring

/-! ## Theorems about the Gaussian derivative kernels -/

/-- Helper: sums over the symmetric range [-r, r] are invariant under
reflecting the index. -/
theorem sum_Icc_reflect (r : ℤ) (f : ℤ → ℝ) :
    ∑ x in Finset.Icc (-r) r, f x = ∑ x in Finset.Icc (-r) r, f (-x) := by
  have himg : (Finset.Icc (-r) r).image (fun x => -x) = Finset.Icc (-r) r := by
    ext a
    simp only [Finset.mem_image, Finset.mem_Icc]
    constructor
    · rintro ⟨b, hb, rfl⟩; omega
    · intro ha; exact ⟨-a, by omega, by omega⟩
  conv_lhs => rw [← himg]
  rw [Finset.sum_image (by intro a _ b _ h; omega)]

/-- Helper: the coordinate sum over the kernel support vanishes. -/
theorem sum_coords_zero (r : ℤ) : ∑ x in Finset.Icc (-r) r, (x : ℝ) = 0 := by
  have h := sum_Icc_reflect r (fun x => (x : ℝ))
  simp only [Int.cast_neg] at h
  rw [Finset.sum_neg_distrib] at h
  linarith

/-- Helper: the kernel support has 2r + 1 elements. -/
theorem support_card (sigma truncate : ℝ) (hr : 0 ≤ gaussRadius sigma truncate) :
    ((gaussKernelSupport sigma truncate).card : ℝ) =
      2 * (gaussRadius sigma truncate : ℝ) + 1 := by
  unfold gaussKernelSupport
  rw [Int.card_Icc]
  have h1 : gaussRadius sigma truncate + 1 - -gaussRadius sigma truncate =
      2 * gaussRadius sigma truncate + 1 := by ring
  rw [h1]
  have h2 : ((2 * gaussRadius sigma truncate + 1).toNat : ℤ) =
      2 * gaussRadius sigma truncate + 1 := Int.toNat_of_nonneg (by omega)
  rw [← Int.cast_natCast (R := ℝ), h2]
  push_cast
  ring

/-- Helper: subtracting the mean makes a finite family sum to zero. -/
theorem sum_sub_mean (s : Finset ℤ) (g : ℤ → ℝ) (n : ℝ) (hn : (s.card : ℝ) = n)
    (h0 : n ≠ 0) : ∑ x in s, (g x - (∑ y in s, g y) / n) = 0 := by
  rw [Finset.sum_sub_distrib, Finset.sum_const, nsmul_eq_mul, hn]
  field_simp

/-- Helper: each zeroth-order Gaussian sample is positive. -/
theorem gauss0_pos (sigma : ℝ) (hs : 0 < sigma) (x : ℤ) : 0 < gauss0 sigma x := by
  unfold gauss0
  have h2 : (0 : ℝ) < Real.sqrt (2 * Real.pi) :=
    Real.sqrt_pos.mpr (by positivity)
  exact div_pos (Real.exp_pos _) (by positivity)

/-- C4 (amended): for sigma > 0 and radius ceil(sigma*truncate) at least 1,
provided the order-2 normalization sum is nonzero, the order-1 kernel has
zero mean and first moment exactly -1, the order-2 kernel has zero mean and
second moment exactly 2, and the order-0 kernel has a positive sum (but that
sum is not 1 in general). -/
theorem gaussian_kernel_moments (sigma truncate : ℝ) (hs : 0 < sigma)
    (hr : 1 ≤ gaussRadius sigma truncate) (hN : gk2norm sigma truncate ≠ 0) :
    0 < (∑ x in gaussKernelSupport sigma truncate, gaussianKernel1d sigma 0 truncate x) ∧
    (∑ x in gaussKernelSupport sigma truncate, gaussianKernel1d sigma 1 truncate x) = 0 ∧
    (∑ x in gaussKernelSupport sigma truncate,
      gaussianKernel1d sigma 1 truncate x * (x : ℝ)) = -1 ∧
    (∑ x in gaussKernelSupport sigma truncate, gaussianKernel1d sigma 2 truncate x) = 0 ∧
    (∑ x in gaussKernelSupport sigma truncate,
      gaussianKernel1d sigma 2 truncate x * (x : ℝ) ^ 2) = 2 := by
  have hr0 : (0 : ℤ) ≤ gaussRadius sigma truncate := by omega
  have hcard : ((gaussKernelSupport sigma truncate).card : ℝ) =
      2 * (gaussRadius sigma truncate : ℝ) + 1 := support_card sigma truncate hr0
  have hn0 : (2 * (gaussRadius sigma truncate : ℝ) + 1) ≠ 0 := by
    have : (1 : ℝ) ≤ (gaussRadius sigma truncate : ℝ) := by exact_mod_cast hr
    positivity
  have hone : (1 : ℤ) ∈ gaussKernelSupport sigma truncate := by
    unfold gaussKernelSupport
    rw [Finset.mem_Icc]
    omega
  refine ⟨?_, ?_, ?_, ?_, ?_⟩
  · -- order 0: positive sum
    apply Finset.sum_pos
    · intro x _
      exact gauss0_pos sigma hs x
    · exact ⟨1, hone⟩
  · -- order 1: zero mean
    show (∑ x in gaussKernelSupport sigma truncate,
      gk1centered sigma truncate x / gk1norm sigma truncate) = 0
    rw [← Finset.sum_div]
    rw [show (∑ x in gaussKernelSupport sigma truncate, gk1centered sigma truncate x) = 0
      from sum_sub_mean _ _ _ hcard hn0]
    exact zero_div _
  · -- order 1: first moment -1
    have hM : (∑ x in gaussKernelSupport sigma truncate,
        gk1centered sigma truncate x * (x : ℝ)) =
        ∑ x in gaussKernelSupport sigma truncate, gk1raw sigma x * (x : ℝ) := by
      unfold gk1centered
      rw [Finset.sum_congr rfl (fun x _ => by ring :
        ∀ x ∈ gaussKernelSupport sigma truncate,
          (gk1raw sigma x -
            (∑ y in gaussKernelSupport sigma truncate, gk1raw sigma y) /
              (2 * (gaussRadius sigma truncate : ℝ) + 1)) * (x : ℝ) =
          gk1raw sigma x * (x : ℝ) -
            (∑ y in gaussKernelSupport sigma truncate, gk1raw sigma y) /
              (2 * (gaussRadius sigma truncate : ℝ) + 1) * (x : ℝ))]
      rw [Finset.sum_sub_distrib, ← Finset.mul_sum]
      unfold gaussKernelSupport
      rw [sum_coords_zero]
      ring
    have hMneg : (∑ x in gaussKernelSupport sigma truncate,
        gk1raw sigma x * (x : ℝ)) < 0 := by
      have hpos : 0 < ∑ x in gaussKernelSupport sigma truncate,
          gauss0 sigma x * (x : ℝ) ^ 2 / sigma ^ 2 := by
        apply Finset.sum_pos'
        · intro x _
          have := gauss0_pos sigma hs x
          positivity
        · refine ⟨1, hone, ?_⟩
          have := gauss0_pos sigma hs 1
          have hx : ((1 : ℤ) : ℝ) = 1 := by norm_num
          rw [hx]
          positivity
      have heq : ∑ x in gaussKernelSupport sigma truncate, gk1raw sigma x * (x : ℝ) =
          -∑ x in gaussKernelSupport sigma truncate,
            gauss0 sigma x * (x : ℝ) ^ 2 / sigma ^ 2 := by
        rw [← Finset.sum_neg_distrib]
        apply Finset.sum_congr rfl
        intro x _
        unfold gk1raw
        ring
      rw [heq]
      linarith
    have hMne : (∑ x in gaussKernelSupport sigma truncate,
        gk1centered sigma truncate x * (x : ℝ)) ≠ 0 := by
      rw [hM]; exact ne_of_lt hMneg
    show (∑ x in gaussKernelSupport sigma truncate,
      gk1centered sigma truncate x / gk1norm sigma truncate * (x : ℝ)) = -1
    have hstep : ∀ x ∈ gaussKernelSupport sigma truncate,
        gk1centered sigma truncate x / gk1norm sigma truncate * (x : ℝ) =
        gk1centered sigma truncate x * (x : ℝ) / gk1norm sigma truncate := by
      intro x _; ring
    rw [Finset.sum_congr rfl hstep, ← Finset.sum_div]
    unfold gk1norm
    field_simp
  · -- order 2: zero mean
    show (∑ x in gaussKernelSupport sigma truncate,
      gk2centered sigma truncate x / gk2norm sigma truncate) = 0
    rw [← Finset.sum_div]
    rw [show (∑ x in gaussKernelSupport sigma truncate, gk2centered sigma truncate x) = 0
      from sum_sub_mean _ _ _ hcard hn0]
    exact zero_div _
  · -- order 2: second moment 2
    show (∑ x in gaussKernelSupport sigma truncate,
      gk2centered sigma truncate x / gk2norm sigma truncate * (x : ℝ) ^ 2) = 2
    have hstep : ∀ x ∈ gaussKernelSupport sigma truncate,
        gk2centered sigma truncate x / gk2norm sigma truncate * (x : ℝ) ^ 2 =
        gk2centered sigma truncate x * (x : ℝ) ^ 2 / gk2norm sigma truncate := by
      intro x _; ring
    rw [Finset.sum_congr rfl hstep, ← Finset.sum_div]
    have h2 : (∑ x in gaussKernelSupport sigma truncate,
        gk2centered sigma truncate x * (x : ℝ) ^ 2) = 2 * gk2norm sigma truncate := by
      unfold gk2norm
      ring
    rw [h2]
    field_simp

/-- Helper: expand a sum over the coordinate range [-1, 1]. -/
theorem sum_Icc_one_expand (f : ℤ → ℝ) :
    ∑ x in Finset.Icc (-1 : ℤ) 1, f x = f (-1) + f 0 + f 1 := by
  rw [show Finset.Icc (-1 : ℤ) 1 = {-1, 0, 1} by decide]
  rw [Finset.sum_insert (by decide), Finset.sum_insert (by decide), Finset.sum_singleton]
  ring

/-- C4 (counterexample): at sigma = 1, truncate = 0 the radius is 0 and the
order-1 kernel's first moment is 0, not -1 (the normalizer divides by zero;
the real embedding maps that to 0, the float source to NaN — either way the
moment is not -1).  Moreover at sigma = 1/4, truncate = 4 the order-0 kernel
sums to more than 3/2, nowhere near 1. -/
theorem gaussian_kernel_moments_counterexample :
    (∑ x in gaussKernelSupport 1 0, gaussianKernel1d 1 1 0 x * (x : ℝ)) = 0 ∧
    ((0 : ℝ) ≠ -1) ∧
    3 / 2 < ∑ x in gaussKernelSupport (1/4) 4, gaussianKernel1d (1/4) 0 4 x := by
  refine ⟨?_, by norm_num, ?_⟩
  · have hr : gaussRadius 1 0 = 0 := by unfold gaussRadius; norm_num
    unfold gaussKernelSupport
    rw [hr, neg_zero, Finset.Icc_self, Finset.sum_singleton]
    norm_num
  · have hr : gaussRadius (1/4 : ℝ) 4 = 1 := by unfold gaussRadius; norm_num
    have hsupp : gaussKernelSupport (1/4 : ℝ) 4 = Finset.Icc (-1 : ℤ) 1 := by
      unfold gaussKernelSupport
      rw [hr]
    rw [hsupp, sum_Icc_one_expand]
    show (3 : ℝ)/2 < gauss0 (1/4) (-1) + gauss0 (1/4) 0 + gauss0 (1/4) 1
    have hp1 : 0 < gauss0 (1/4 : ℝ) (-1) := gauss0_pos _ (by norm_num) _
    have hp2 : 0 < gauss0 (1/4 : ℝ) 1 := gauss0_pos _ (by norm_num) _
    have h2π : (0 : ℝ) < 2 * Real.pi := by positivity
    have hsp : 0 < Real.sqrt (2 * Real.pi) := Real.sqrt_pos.mpr h2π
    have hsq : Real.sqrt (2 * Real.pi) < 8/3 := by
      rw [show (8 : ℝ)/3 = Real.sqrt ((8/3) ^ 2) from (Real.sqrt_sq (by norm_num)).symm]
      exact Real.sqrt_lt_sqrt (le_of_lt h2π) (by nlinarith [Real.pi_lt_d2])
    have hB : (3 : ℝ)/2 < gauss0 (1/4) 0 := by
      unfold gauss0
      rw [show (-((0 : ℤ) : ℝ) ^ 2 / (2 * (1/4 : ℝ) ^ 2)) = 0 by norm_num]
      rw [Real.exp_zero]
      rw [lt_div_iff₀ (by positivity)]
      nlinarith
    linarith

/-- Witness for gaussian_kernel_moments at sigma = 1, truncate = 1 (radius 1,
order-2 normalizer 1/(3 sqrt(2 pi)) > 0):  the moment identities hold there. -/
theorem gaussian_kernel_moments_witness :
    ((0 : ℝ) < 1 ∧ 1 ≤ gaussRadius 1 1 ∧ gk2norm 1 1 ≠ 0) ∧
    (∑ x in gaussKernelSupport 1 1, gaussianKernel1d 1 1 1 x * (x : ℝ)) = -1 ∧
    (∑ x in gaussKernelSupport 1 1, gaussianKernel1d 1 2 1 x * (x : ℝ) ^ 2) = 2 := by
  have h1 : (0 : ℝ) < 1 := one_pos
  have hrad : gaussRadius 1 1 = 1 := by unfold gaussRadius; norm_num
  have h2 : 1 ≤ gaussRadius 1 1 := le_of_eq hrad.symm
  have hsupp : gaussKernelSupport (1 : ℝ) 1 = Finset.Icc (-1 : ℤ) 1 := by
    unfold gaussKernelSupport
    rw [hrad]
  have hrawm : gk2raw 1 (-1) = 0 := by
    unfold gk2raw
    norm_num
  have hrawp : gk2raw 1 1 = 0 := by
    unfold gk2raw
    norm_num
  have hraw0 : gk2raw 1 0 = -gauss0 1 0 := by
    unfold gk2raw
    norm_num
  have hin : (∑ y in Finset.Icc (-1 : ℤ) 1, gk2raw 1 y) = -gauss0 1 0 := by
    rw [sum_Icc_one_expand, hrawm, hrawp, hraw0]
    ring
  have hval : gk2norm 1 1 = gauss0 1 0 / 3 := by
    unfold gk2norm
    rw [hsupp, sum_Icc_one_expand]
    unfold gk2centered
    rw [hsupp, hrad, hin, hrawm, hrawp, hraw0]
    push_cast
    ring
  have h3 : gk2norm 1 1 ≠ 0 := by
    rw [hval]
    have := gauss0_pos 1 one_pos 0
    positivity
  exact ⟨⟨h1, h2, h3⟩, (gaussian_kernel_moments 1 1 h1 h2 h3).2.2.1,
    (gaussian_kernel_moments 1 1 h1 h2 h3).2.2.2.2⟩

/-! ## The fused 3D Hessian versus three separable passes -/

/-- Helper: at sigma = 1/4, truncate = 4 the kernel radius is 1. -/
theorem radius_quarter : gaussRadius (1/4 : ℝ) 4 = 1 := by
  unfold gaussRadius
  norm_num

/-- Helper: the kernel support at sigma = 1/4, truncate = 4. -/
theorem support_quarter : gaussKernelSupport (1/4 : ℝ) 4 = Finset.Icc (-1 : ℤ) 1 := by
  unfold gaussKernelSupport
  rw [radius_quarter]

/-- Helper: the Gaussian sample is even in the coordinate. -/
theorem gauss0_quarter_symm : gauss0 (1/4 : ℝ) (-1) = gauss0 (1/4 : ℝ) 1 := by
  unfold gauss0
  norm_num

/-- Helper: raw order-1 sample at -1 for sigma = 1/4. -/
theorem gk1raw_quarter_m : gk1raw (1/4 : ℝ) (-1) = 16 * gauss0 (1/4 : ℝ) (-1) := by
  unfold gk1raw
  norm_num
  ring

/-- Helper: raw order-1 sample at 0 vanishes. -/
theorem gk1raw_quarter_z : gk1raw (1/4 : ℝ) 0 = 0 := by
  unfold gk1raw
  norm_num

/-- Helper: raw order-1 sample at 1 for sigma = 1/4. -/
theorem gk1raw_quarter_p : gk1raw (1/4 : ℝ) 1 = -16 * gauss0 (1/4 : ℝ) 1 := by
  unfold gk1raw
  norm_num
  ring

/-- Helper: the order-1 normalizer at sigma = 1/4, truncate = 4. -/
theorem gk1norm_quarter : gk1norm (1/4 : ℝ) 4 = 32 * gauss0 (1/4 : ℝ) 1 := by
  unfold gk1norm
  rw [support_quarter, sum_Icc_one_expand]
  unfold gk1centered
  rw [support_quarter, radius_quarter, sum_Icc_one_expand,
    gk1raw_quarter_m, gk1raw_quarter_z, gk1raw_quarter_p, gauss0_quarter_symm]
  push_cast
  ring

/-- Helper: normalized order-1 kernel value at -1 for sigma = 1/4. -/
theorem k1_quarter_m : gaussianKernel1d (1/4 : ℝ) 1 4 (-1) = 1/2 := by
  have hA : (0 : ℝ) < gauss0 (1/4 : ℝ) 1 := gauss0_pos _ (by norm_num) _
  have hA' : gauss0 (1/4 : ℝ) 1 ≠ 0 := ne_of_gt hA
  show gk1centered (1/4) 4 (-1) / gk1norm (1/4) 4 = 1/2
  unfold gk1centered
  rw [support_quarter, radius_quarter, sum_Icc_one_expand,
    gk1raw_quarter_m, gk1raw_quarter_z, gk1raw_quarter_p, gauss0_quarter_symm,
    gk1norm_quarter]
  push_cast
  field_simp
  ring

/-- Helper: normalized order-1 kernel value at 0 for sigma = 1/4. -/
theorem k1_quarter_z : gaussianKernel1d (1/4 : ℝ) 1 4 0 = 0 := by
  show gk1centered (1/4) 4 0 / gk1norm (1/4) 4 = 0
  unfold gk1centered
  rw [support_quarter, radius_quarter, sum_Icc_one_expand,
    gk1raw_quarter_m, gk1raw_quarter_z, gk1raw_quarter_p, gauss0_quarter_symm]
  push_cast
  norm_num

/-- Helper: normalized order-1 kernel value at 1 for sigma = 1/4. -/
theorem k1_quarter_p : gaussianKernel1d (1/4 : ℝ) 1 4 1 = -(1/2) := by
  have hA : (0 : ℝ) < gauss0 (1/4 : ℝ) 1 := gauss0_pos _ (by norm_num) _
  have hA' : gauss0 (1/4 : ℝ) 1 ≠ 0 := ne_of_gt hA
  show gk1centered (1/4) 4 1 / gk1norm (1/4) 4 = -(1/2)
  unfold gk1centered
  rw [support_quarter, radius_quarter, sum_Icc_one_expand,
    gk1raw_quarter_m, gk1raw_quarter_z, gk1raw_quarter_p, gauss0_quarter_symm,
    gk1norm_quarter]
  push_cast
  field_simp
  ring

/-- Helper: the order-0 kernel is the raw Gaussian sample. -/
theorem k0_quarter (x : ℤ) : gaussianKernel1d (1/4 : ℝ) 0 4 x = gauss0 (1/4) x := rfl

/-- Helper: the D-axis order-0 pass of the separable path on the impulse
image, evaluated at depth 0 (extent 1, zero padding). -/
theorem separable_pass_d (h w : ℤ) :
    conv3dAxis0 PadMode.constant 1 1 (gaussianKernel1d (1/4 : ℝ) 0 4) delta3 0 h w =
      gauss0 (1/4) 0 * delta3 0 h w := by
  unfold conv3dAxis0 convLine
  rw [sum_Icc_one_expand]
  simp only [extend1, k0_quarter]
  norm_num

/-- Helper: the H-axis order-1 pass of the separable path, evaluated on
row 0 (extent 3, zero padding). -/
theorem separable_pass_h (w : ℤ) :
    conv3dAxis1 PadMode.constant 3 1 (gaussianKernel1d (1/4 : ℝ) 1 4)
      (conv3dAxis0 PadMode.constant 1 1 (gaussianKernel1d (1/4 : ℝ) 0 4) delta3) 0 0 w =
      -(1/2) * (gauss0 (1/4) 0 * delta3 0 1 w) := by
  unfold conv3dAxis1 convLine
  rw [sum_Icc_one_expand]
  simp only [extend1]
  norm_num [separable_pass_d, k1_quarter_m, k1_quarter_z, k1_quarter_p]

/-- C1: on the 1 x 3 x 3 unit-impulse image with sigma = 1/4, truncate = 4,
the xy channel of the fused grouped-convolution path (_hessian_3d) is 0 at
voxel (0, 0, 0), while three independent single-axis passes of
gaussian_filter with order [0, 1, 1] and constant (zero) boundary mode give
the nonzero value gauss0(0)/4 = 1/sqrt(2 pi) there: the fused path ignores
its mode parameter and zero-fills every voxel within one radius of the W
boundary, so the two paths disagree. -/
theorem hessian3d_fused_mismatch :
    hessian3d_xy (1/4) 4 1 3 3 delta3 0 0 0 = 0 ∧
    gaussian_filter3 (1/4) 4 PadMode.constant 1 3 3 0 1 1 delta3 0 0 0 =
      gauss0 (1/4) 0 / 4 ∧
    gauss0 (1/4 : ℝ) 0 / 4 ≠ 0 := by
  refine ⟨?_, ?_, ?_⟩
  · unfold hessian3d_xy hessian3dFusedComponent hessian3dStepZ
    rw [radius_quarter]
    have hc : ¬((0 : ℤ) ≤ 0 - 1 ∧ (0 : ℤ) - 1 < 3 - 2 * 1) := by omega
    simp [hc]
  · unfold gaussian_filter3 conv3dAxis2 convLine
    rw [radius_quarter, sum_Icc_one_expand]
    simp only [extend1]
    norm_num [separable_pass_h, k1_quarter_m, k1_quarter_z, k1_quarter_p, delta3]
    ring
  · have := gauss0_pos (1/4 : ℝ) (by norm_num) 0
    positivity

/-! ## Matrix assembly round trip -/

/-- C6: assembling the triangular Hessian components into the explicit
symmetric matrix (hessian with as_matrix) and extracting the upper
triangle reproduces the components exactly, for the 2D components of any
image and the fused 3D channels of any volume. -/
theorem hessian_as_matrix_roundtrip (sigma truncate : ℝ) (mode : PadMode)
    (D H W : ℤ) (f2 : ℤ → ℤ → ℝ) (f3 : ℤ → ℤ → ℤ → ℝ) (i j d h w : ℤ) :
    triu2 (hessianAsMatrix2 (hessian2d_xx sigma truncate mode H W f2 i j)
        (hessian2d_xy sigma truncate mode H W f2 i j)
        (hessian2d_yy sigma truncate mode H W f2 i j)) =
      (hessian2d_xx sigma truncate mode H W f2 i j,
       hessian2d_xy sigma truncate mode H W f2 i j,
       hessian2d_yy sigma truncate mode H W f2 i j) ∧
    triu3 (hessianAsMatrix3 (hessian3d_xx sigma truncate D H W f3 d h w)
        (hessian3d_xy sigma truncate D H W f3 d h w)
        (hessian3d_xz sigma truncate D H W f3 d h w)
        (hessian3d_yy sigma truncate D H W f3 d h w)
        (hessian3d_yz sigma truncate D H W f3 d h w)
        (hessian3d_zz sigma truncate D H W f3 d h w)) =
      (hessian3d_xx sigma truncate D H W f3 d h w,
       hessian3d_xy sigma truncate D H W f3 d h w,
       hessian3d_xz sigma truncate D H W f3 d h w,
       hessian3d_yy sigma truncate D H W f3 d h w,
       hessian3d_yz sigma truncate D H W f3 d h w,
       hessian3d_zz sigma truncate D H W f3 d h w) :=
  ⟨rfl, rfl⟩

/-! ## Eigenvalue ordering -/

/-- Helper: sortAbs2 returns a pair ascending in absolute value. -/
theorem sortAbs2_sorted (e : ℝ × ℝ) : |(sortAbs2 e).1| ≤ |(sortAbs2 e).2| := by
  unfold sortAbs2
  split_ifs with h
  · exact h
  · exact le_of_not_le h

/-- Helper: inserting into an abs-sorted pair keeps the chain. -/
theorem insAbs_sorted (c : ℝ) (p : ℝ × ℝ) (hp : |p.1| ≤ |p.2|) :
    |(insAbs c p).1| ≤ |(insAbs c p).2.1| ∧ |(insAbs c p).2.1| ≤ |(insAbs c p).2.2| := by
  unfold insAbs
  split_ifs with h1 h2
  · exact ⟨h1, hp⟩
  · exact ⟨le_of_not_le h1, h2⟩
  · exact ⟨hp, le_of_not_le h2⟩

/-- Helper: sortAbs3 returns a triple ascending in absolute value. -/
theorem sortAbs3_sorted (e : ℝ × ℝ × ℝ) :
    |(sortAbs3 e).1| ≤ |(sortAbs3 e).2.1| ∧ |(sortAbs3 e).2.1| ≤ |(sortAbs3 e).2.2| := by
  unfold sortAbs3
  exact insAbs_sorted _ _ (sortAbs2_sorted _)

/-- C3: every per-pixel eigenvalue tuple returned by hessian_eigenvalues
is ordered ascending by absolute value, in 2D and in 3D, for every image,
sigma, truncate and boundary mode. -/
theorem hessian_eigenvalues_abs_ascending (sigma truncate : ℝ) (mode : PadMode)
    (D H W : ℤ) (f2 : ℤ → ℤ → ℝ) (f3 : ℤ → ℤ → ℤ → ℝ) (i j d h w : ℤ) :
    |(hessian_eigenvalues2 sigma truncate mode H W f2 i j).1| ≤
      |(hessian_eigenvalues2 sigma truncate mode H W f2 i j).2| ∧
    |(hessian_eigenvalues3 sigma truncate D H W f3 d h w).1| ≤
      |(hessian_eigenvalues3 sigma truncate D H W f3 d h w).2.1| ∧
    |(hessian_eigenvalues3 sigma truncate D H W f3 d h w).2.1| ≤
      |(hessian_eigenvalues3 sigma truncate D H W f3 d h w).2.2| := by
  unfold hessian_eigenvalues2 hessian_eigenvalues3
  exact ⟨sortAbs2_sorted _, (sortAbs3_sorted _).1, (sortAbs3_sorted _).2⟩

/-! ## The 2D blobness ratio -/

/-- C2 (counterexample): with lambda1 = 1, lambda2 = -5 and the default
eps = 1e-10, the code's blobness ratio is 1e10, not |1/(-5)| = 1/5: the
flooring is `torch.maximum(lambda2, eps)`, a signed floor, so a negative
lambda2 of large magnitude is replaced by eps instead of kept. -/
theorem frangi2d_rb_counterexample :
    frangiRb2d 1 (-5) (1e-10) = 1e10 ∧ (1e10 : ℝ) ≠ |(1 : ℝ) / (-5)| := by
  have habs : |(1 : ℝ) / (-5)| = 1/5 := by
    rw [abs_div]
    norm_num
  constructor
  · unfold frangiRb2d
    rw [max_eq_right (by norm_num : (-5 : ℝ) ≤ 1e-10)]
    rw [abs_of_nonneg (by norm_num)]
    norm_num
  · rw [habs]
    norm_num

/-- C2 (amended): in frangi's 2D branch the blobness ratio is
|lambda1 / max(lambda2, eps)| — the floor is applied to the signed
lambda2, agreeing with the spec's magnitude-floored ratio whenever
lambda2 >= eps — and the response of the branch carries no Ra factor
(its place is held by the literal 1). -/
theorem frangi2d_rb_amended (lam1 lam2 eps beta gammaT : ℝ) (h : eps ≤ lam2) :
    frangiRb2d lam1 lam2 eps = |lam1 / lam2| ∧
    frangiResponse2d beta eps gammaT lam1 lam2 =
      Real.exp (-frangiRb2d lam1 lam2 eps ^ 2 / (2 * beta ^ 2 + eps)) *
        (1 - Real.exp (-Real.sqrt (lam1 ^ 2 + lam2 ^ 2) ^ 2 / (2 * gammaT ^ 2 + eps))) := by
  constructor
  · unfold frangiRb2d
    rw [max_eq_left h]
  · unfold frangiResponse2d
    ring

/-- Witness for frangi2d_rb_amended at lambda1 = 1, lambda2 = 2,
eps = 1e-10. -/
theorem frangi2d_rb_amended_witness :
    (1e-10 : ℝ) ≤ 2 ∧ frangiRb2d 1 2 (1e-10) = |(1 : ℝ) / 2| :=
  ⟨by norm_num, (frangi2d_rb_amended 1 2 (1e-10) 1 1 (by norm_num)).1⟩

/-! ## Bounds and monotonicity of the frangi response -/

/-- Helper: a product of a [0,1] factor, a (0,1] factor and a [0,1)
factor written as 1 - c with 0 < c ≤ 1 stays inside [0, 1). -/
theorem response_product_bounds (a b c : ℝ) (ha0 : 0 ≤ a) (ha1 : a ≤ 1)
    (hb0 : 0 < b) (hb1 : b ≤ 1) (hc0 : 0 < c) (hc1 : c ≤ 1) :
    0 ≤ a * b * (1 - c) ∧ a * b * (1 - c) < 1 := by
  have hab0 : 0 ≤ a * b := mul_nonneg ha0 (le_of_lt hb0)
  have hab1 : a * b ≤ 1 := mul_le_one₀ ha1 (le_of_lt hb0) hb1
  constructor
  · exact mul_nonneg hab0 (by linarith)
  · have h1 : a * b * (1 - c) ≤ 1 - c := mul_le_of_le_one_left (by linarith) hab1
    linarith

/-- Helper: an exponential of a nonpositive ratio is at most 1. -/
theorem exp_neg_sq_div_le_one (u v : ℝ) (hv : 0 ≤ v) :
    Real.exp (-u ^ 2 / v) ≤ 1 := by
  rw [Real.exp_le_one_iff, neg_div]
  have := div_nonneg (sq_nonneg u) hv
  linarith

/-- Helper: per-pixel bounds of the 2D response. -/
theorem frangiResponse2d_bounds (beta eps gammaT lam1 lam2 : ℝ) (heps : 0 ≤ eps) :
    0 ≤ frangiResponse2d beta eps gammaT lam1 lam2 ∧
    frangiResponse2d beta eps gammaT lam1 lam2 < 1 := by
  unfold frangiResponse2d
  exact response_product_bounds 1 _ _ (by norm_num) (le_refl 1)
    (Real.exp_pos _) (exp_neg_sq_div_le_one _ _ (by positivity))
    (Real.exp_pos _) (exp_neg_sq_div_le_one _ _ (by positivity))

/-- Helper: per-pixel bounds of the 3D response. -/
theorem frangiResponse3d_bounds (alpha beta eps gammaT lam1 lam2 lam3 : ℝ)
    (heps : 0 ≤ eps) :
    0 ≤ frangiResponse3d alpha beta eps gammaT lam1 lam2 lam3 ∧
    frangiResponse3d alpha beta eps gammaT lam1 lam2 lam3 < 1 := by
  unfold frangiResponse3d
  have hra := exp_neg_sq_div_le_one (max lam2 eps / max lam3 eps)
    (2 * alpha ^ 2) (by positivity)
  have hrap := Real.exp_pos (-(max lam2 eps / max lam3 eps) ^ 2 / (2 * alpha ^ 2))
  exact response_product_bounds _ _ _ (by linarith) (by linarith)
    (Real.exp_pos _) (exp_neg_sq_div_le_one _ _ (by positivity))
    (Real.exp_pos _) (exp_neg_sq_div_le_one _ _ (by positivity))

/-- Helper: per-pixel bounds of one 2D frangi scale. -/
theorem frangiScale2d_bounds (sigma : ℝ) (H W : ℤ) (gamma : Option ℝ)
    (beta eps : ℝ) (f : ℤ → ℤ → ℝ) (i j : ℤ) (heps : 0 ≤ eps) :
    0 ≤ frangiScale2d sigma H W gamma beta eps f i j ∧
    frangiScale2d sigma H W gamma beta eps f i j < 1 := by
  simp only [frangiScale2d]
  exact frangiResponse2d_bounds _ _ _ _ _ heps

/-- Helper: per-pixel bounds of one 3D frangi scale. -/
theorem frangiScale3d_bounds (sigma : ℝ) (D H W : ℤ) (gamma : Option ℝ)
    (alpha beta eps : ℝ) (f : ℤ → ℤ → ℤ → ℝ) (d h w : ℤ) (heps : 0 ≤ eps) :
    0 ≤ frangiScale3d sigma D H W gamma alpha beta eps f d h w ∧
    frangiScale3d sigma D H W gamma alpha beta eps f d h w < 1 := by
  simp only [frangiScale3d]
  exact frangiResponse3d_bounds _ _ _ _ _ _ _ heps

/-- Helper: a left fold of maxima never drops below its accumulator. -/
theorem foldl_max_le_init (l : List ℝ) (v : ℝ → ℝ) (a : ℝ) :
    a ≤ l.foldl (fun acc s => max acc (v s)) a := by
  induction l generalizing a with
  | nil => exact le_refl a
  | cons s t ih =>
    simp only [List.foldl_cons]
    exact le_trans (le_max_left a (v s)) (ih (max a (v s)))

/-- Helper: a left fold of maxima of values below 1 stays below 1. -/
theorem foldl_max_lt_one (l : List ℝ) (v : ℝ → ℝ) (a : ℝ) (ha : a < 1)
    (hv : ∀ s, v s < 1) : l.foldl (fun acc s => max acc (v s)) a < 1 := by
  induction l generalizing a with
  | nil => exact ha
  | cons s t ih =>
    simp only [List.foldl_cons]
    exact ih (max a (v s)) (max_lt ha (hv s))

/-- Helper: extending the scale list can only increase the fold. -/
theorem foldl_max_prefix_le (l1 l2 : List ℝ) (v : ℝ → ℝ) (a : ℝ) :
    l1.foldl (fun acc s => max acc (v s)) a ≤
      (l1 ++ l2).foldl (fun acc s => max acc (v s)) a := by
  rw [List.foldl_append]
  exact foldl_max_le_init l2 v _

/-- C5: the frangi response is nonnegative and strictly below 1 at every
pixel, for every image and every scale list (2D and 3D, any parameters
with nonnegative eps as the default 1e-10 is), and the per-pixel running
maximum never decreases when more scales are scanned. -/
theorem frangi_bounds_and_monotone (sigmas more : List ℝ) (D H W : ℤ)
    (gamma : Option ℝ) (alpha beta eps : ℝ) (f2 : ℤ → ℤ → ℝ)
    (f3 : ℤ → ℤ → ℤ → ℝ) (i j d h w : ℤ) (heps : 0 ≤ eps) :
    (0 ≤ frangi2 sigmas H W gamma beta eps f2 i j ∧
      frangi2 sigmas H W gamma beta eps f2 i j < 1) ∧
    (0 ≤ frangi3 sigmas D H W gamma alpha beta eps f3 d h w ∧
      frangi3 sigmas D H W gamma alpha beta eps f3 d h w < 1) ∧
    frangi2 sigmas H W gamma beta eps f2 i j ≤
      frangi2 (sigmas ++ more) H W gamma beta eps f2 i j ∧
    frangi3 sigmas D H W gamma alpha beta eps f3 d h w ≤
      frangi3 (sigmas ++ more) D H W gamma alpha beta eps f3 d h w := by
  unfold frangi2 frangi3
  refine ⟨⟨?_, ?_⟩, ⟨?_, ?_⟩, ?_, ?_⟩
  · exact foldl_max_le_init sigmas _ 0
  · exact foldl_max_lt_one sigmas _ 0 one_pos
      (fun s => (frangiScale2d_bounds s H W gamma beta eps f2 i j heps).2)
  · exact foldl_max_le_init sigmas _ 0
  · exact foldl_max_lt_one sigmas _ 0 one_pos
      (fun s => (frangiScale3d_bounds s D H W gamma alpha beta eps f3 d h w heps).2)
  · exact foldl_max_prefix_le sigmas more _ 0
  · exact foldl_max_prefix_le sigmas more _ 0

/-- Witness for frangi_bounds_and_monotone on a concrete zero image with
the default eps. -/
theorem frangi_bounds_and_monotone_witness :
    (0 : ℝ) ≤ 1e-10 ∧
    0 ≤ frangi2 [1] 1 1 none (1/2) (1e-10) (fun _ _ => 0) 0 0 ∧
    frangi2 [1] 1 1 none (1/2) (1e-10) (fun _ _ => 0) 0 0 < 1 := by
  have h : (0 : ℝ) ≤ 1e-10 := by norm_num
  have hb := (frangi_bounds_and_monotone [1] [] 1 1 1 none (1/2) (1/2) (1e-10)
    (fun _ _ => 0) (fun _ _ _ => 0) 0 0 0 0 0 h).1
  exact ⟨h, hb.1, hb.2⟩

/-! ## Scale validation -/

/-- C9: frangi's validation fails exactly when the resolved scale list
contains a negative sigma — every nonnegative sigma, zero included, is
accepted — and the check guards the whole scale loop, so no convolution
or eigenvalue work happens on the error path. -/
theorem frangi_negative_sigma_iff (sigmas : List ℝ) (D H W : ℤ)
    (gamma : Option ℝ) (alpha beta eps : ℝ) (f2 : ℤ → ℤ → ℝ)
    (f3 : ℤ → ℤ → ℤ → ℝ) :
    (frangiChecked2 sigmas H W gamma beta eps f2 =
        Except.error FrangiError.negativeSigma ↔ ∃ s ∈ sigmas, s < 0) ∧
    (frangiChecked3 sigmas D H W gamma alpha beta eps f3 =
        Except.error FrangiError.negativeSigma ↔ ∃ s ∈ sigmas, s < 0) := by
  have key : ((sigmas.any fun s => decide (s < 0)) = true) ↔ ∃ s ∈ sigmas, s < 0 := by
    simp [List.any_eq_true]
  constructor
  · unfold frangiChecked2
    split_ifs with hc
    · exact ⟨fun _ => key.mp hc, fun _ => rfl⟩
    · refine ⟨fun hco => absurd hco (by simp), fun hex => absurd (key.mpr hex) hc⟩
  · unfold frangiChecked3
    split_ifs with hc
    · exact ⟨fun _ => key.mp hc, fun _ => rfl⟩
    · refine ⟨fun hco => absurd hco (by simp), fun hex => absurd (key.mpr hex) hc⟩

end Diptorch
